import Mathlib

/-!
Verification development for the BSP indexer (`code/scripts/bsp_indexer.py`).

The indexer crawls a project tree, classifies files by extension, extracts
facts (symbols, include edges, device-tree nodes/properties) with per-format
line-oriented regex extractors, and writes them in per-batch transactions
into a relational store.

This file is a shallow embedding of that program:
* Python string helpers (`strip`, `split`, slicing) are modelled on
  `List Char` / `String`;
* each regex used by the source is translated into an executable matcher
  whose backtracking behaviour was checked against CPython `re` on the
  corner cases that matter (lazy `\S+?` name scanning, greedy-optional
  label and address groups, the optional `= value` group of property
  lines, operator alternation of the BitBake assignment regex);
* the three extractors, the crawler with glob-based directory pruning, and
  the batched store writer are translated function by function.

ASCII inputs are assumed throughout: `\w` is modelled as
`[A-Za-z0-9_]` and `\s` as the ASCII whitespace characters, which is what
CPython's `re` produces on the ASCII device-tree / BitBake sources the
indexer targets.
-/

namespace Bsp

/-! ## Python string primitives -/

/-- ASCII whitespace, the characters matched by `\s` (and stripped by
`str.strip`) on ASCII input. -/
def pyIsSpace (c : Char) : Bool :=
  c == ' ' || c == '\t' || c == '\n' || c == '\r' || c == '\x0b' || c == '\x0c'

/-- The character class `\w` on ASCII input: `[A-Za-z0-9_]`. -/
def isWordChar (c : Char) : Bool :=
  c.isAlpha || c.isDigit || c == '_'

/-- `[0-9a-fA-F]`, the address digits of the node-open regex. -/
def pyIsHexDigit (c : Char) : Bool :=
  c.isDigit || ('a' ≤ c && c ≤ 'f') || ('A' ≤ c && c ≤ 'F')

/-- `str.strip()` on a character list: drop whitespace from both ends. -/
def pyStripList (cs : List Char) : List Char :=
  ((cs.dropWhile pyIsSpace).reverse.dropWhile pyIsSpace).reverse

/-- `str.strip()`. -/
def pyStrip (s : String) : String :=
  String.mk (pyStripList s.toList)

/-- Python slicing `s[:n]`, the value-truncation operation. -/
def pyTake (n : Nat) (s : String) : String :=
  String.mk (s.toList.take n)

/-- Core of `content.split('\n')` on character lists: split at every
newline, keeping empty pieces (so the result is always nonempty). -/
def splitNlList : List Char → List (List Char)
  | [] => [[]]
  | '\n' :: r => [] :: splitNlList r
  | c :: r =>
    match splitNlList r with
    | h :: t => (c :: h) :: t
    | [] => [[c]]

/-- `content.split('\n')`. -/
def pySplitNewlines (s : String) : List String :=
  (splitNlList s.toList).map String.mk

/-- Python `str.startswith(pre)`. -/
def pyStartsWith (s pre : String) : Bool :=
  s.toList.take pre.toList.length == pre.toList

/-- `str.split()` with no argument: split on whitespace runs, dropping
empty tokens. -/
def pySplitWs (cs : List Char) : List String :=
  let step := fun (acc : List String × List Char) (c : Char) =>
    if pyIsSpace c then
      match acc.2 with
      | [] => acc
      | tok => (acc.1 ++ [String.mk tok.reverse], [])
    else (acc.1, c :: acc.2)
  let r := cs.foldl step ([], [])
  r.1 ++ (match r.2 with
          | [] => []
          | tok => [String.mk tok.reverse])

/-! ## Regex matchers

Each matcher is the translation of one `re` pattern from the source.
They operate on the already-stripped line as a `List Char` and return the
captured groups, replicating CPython's leftmost match with backtracking. -/

/-- Matcher for `#include\s*[<"]([^>"]+)[>"]` under `re.match` (used both
by `_parse_dts` and `_parse_header`): literal `#include`, optional
whitespace, an opening `<` or `"`, a nonempty run of characters other
than `>` and `"`, then a closing `>` or `"`.  The capture is the target
path.  (The greedy `[^>"]+` needs no backtracking: the character after a
shortened run is never `>` or `"`.) -/
def matchHashInclude (cs : List Char) : Option String :=
  if cs.take 8 == "#include".toList then
    let r := (cs.drop 8).dropWhile pyIsSpace
    match r with
    | q :: t =>
      if q == '<' || q == '"' then
        let v := t.takeWhile (fun c => c ≠ '>' && c ≠ '"')
        if v.isEmpty then none
        else
          match t.drop v.length with
          | e :: _ => if e == '>' || e == '"' then some (String.mk v) else none
          | [] => none
      else none
    | [] => none
  else none

/-- Whether `\s*\{` matches at this position (the tail of the node-open
regex after name and optional address). -/
def lbraceAfterSpaces (cs : List Char) : Bool :=
  match cs.dropWhile pyIsSpace with
  | c :: _ => c == '\x7b'
  | [] => false

/-- Greedy-with-backtracking match of `([0-9a-fA-F]+)\s*\{` inside the
optional address group: try the hex-digit run lengths from `k` down to 1
and return the longest for which `\s*\{` follows.  The caller passes the
length of the maximal hex run of `r`, so `r.take k` is all hex digits. -/
def addrTry (r : List Char) : Nat → Option String
  | 0 => none
  | k + 1 =>
    if lbraceAfterSpaces (r.drop (k + 1)) then some (String.mk (r.take (k + 1)))
    else addrTry r k

/-- Lazy scan for `(\S+?)(?:@([0-9a-fA-F]+))?\s*\{`: the name grows one
non-space character at a time (shortest match wins, as for a lazy
quantifier); at each candidate name the greedy optional address group is
tried first (`@` followed by the longest workable hex run), then a bare
`\s*\{`.  `acc` is the reversed name read so far (nonempty). -/
def nameScan (acc rest : List Char) : Option (String × Option String) :=
  let tryHere : Option (Option String) :=
    match rest with
    | '@' :: r =>
      match addrTry r (r.takeWhile pyIsHexDigit).length with
      | some a => some (some a)
      | none => if lbraceAfterSpaces rest then some none else none
    | _ => if lbraceAfterSpaces rest then some none else none
  match tryHere with
  | some a => some (String.mk acc.reverse, a)
  | none =>
    match rest with
    | c :: r => if pyIsSpace c then none else nameScan (c :: acc) r
    | [] => none

/-- Match `(\S+?)(?:@([0-9a-fA-F]+))?\s*\{` at the start of `cs`:
name (captured) and optional address (captured). -/
def matchNameAddr (cs : List Char) : Option (String × Option String) :=
  match cs with
  | c :: r => if pyIsSpace c then none else nameScan [c] r
  | [] => none

/-- Matcher for the node-opening regex
`^(?:(\w+)\s*:\s*)?(\S+?)(?:@([0-9a-fA-F]+))?\s*\{` of `_parse_dts`.
The optional label group is greedy, so it is tried first (a maximal
`\w+` run, optional spaces, `:`, optional spaces); if the remainder then
fails to match, the whole match is retried without the label group —
exactly CPython's backtracking (checked e.g. on `a: \x7b`, which matches
with name `a:` and no label, and on `a::b \x7b`, label `a`, name `:b`).
Returns `(label?, name, address?)`. -/
def matchNodeOpen (cs : List Char) : Option (Option String × String × Option String) :=
  let wordRun := cs.takeWhile isWordChar
  let withLabel : Option (Option String × String × Option String) :=
    if wordRun.isEmpty then none
    else
      match (cs.drop wordRun.length).dropWhile pyIsSpace with
      | ':' :: r2 =>
        match matchNameAddr (r2.dropWhile pyIsSpace) with
        | some (n, a) => some (some (String.mk wordRun), n, a)
        | none => none
      | _ => none
  match withLabel with
  | some res => some res
  | none =>
    match matchNameAddr cs with
    | some (n, a) => some (none, n, a)
    | none => none

/-- The property-name character class `[\w,#-]`. -/
def isPropNameChar (c : Char) : Bool :=
  isWordChar c || c == ',' || c == '#' || c == '-'

/-- Matcher for the property regex `^([\w,#-]+)\s*(?:=\s*(.+?))?;$` of
`_parse_dts`.  After the maximal name run and optional spaces, either the
line is exactly `;` (no value, `None` group), or an `=` follows: then the
line must end in `;`, the greedy `\s*` after `=` gives back just enough
for the lazy `(.+?)` to be nonempty, and the value is everything strictly
between (checked against CPython on `a =  ;` → value `' '`, `a=;;` →
value `;`, `a = b;;` → value `b;`). -/
def matchDtProp (cs : List Char) : Option (String × Option String) :=
  let run := cs.takeWhile isPropNameChar
  if run.isEmpty then none
  else
    match (cs.drop run.length).dropWhile pyIsSpace with
    | '=' :: r =>
      if r.length ≥ 2 && r.getLastD ' ' == ';' then
        let k := min (r.takeWhile pyIsSpace).length (r.length - 2)
        some (String.mk run, some (String.mk ((r.drop k).dropLast)))
      else none
    | [';'] => some (String.mk run, none)
    | _ => none

/-- `re.finditer(r'&(\w+)', value)`: every non-overlapping occurrence of
`&` followed by a nonempty `\w+` run, scanning left to right; yields the
bare identifiers. -/
def findAmpRefs : List Char → List String
  | [] => []
  | '&' :: r =>
    let run := r.takeWhile isWordChar
    if run.isEmpty then findAmpRefs r
    else String.mk run :: findAmpRefs (r.drop run.length)
  | _ :: r => findAmpRefs r
termination_by cs => cs.length
decreasing_by
  all_goals simp only [List.length_drop, List.length_cons]
  all_goals omega

/-- First character of a BitBake variable name: `[A-Za-z_]`. -/
def isVarStart (c : Char) : Bool := c.isAlpha || c == '_'

/-- Remaining characters of a BitBake variable name: `[A-Za-z0-9_-]`. -/
def isVarTail (c : Char) : Bool := c.isAlpha || c.isDigit || c == '_' || c == '-'

/-- The operator alternation `(\??\+?=|:=|\.=)` with CPython's greedy
optional quantifiers: recognised spellings, in matching order, are
`?+=`, `?=`, `+=`, `=`, `:=`, `.=`.  The weak-default `??=` is NOT
matched (`\??` allows at most one `?`).  Returns the operator and the
rest of the line. -/
def matchOp : List Char → Option (String × List Char)
  | '?' :: '+' :: '=' :: r => some ("?+=", r)
  | '?' :: '=' :: r => some ("?=", r)
  | '+' :: '=' :: r => some ("+=", r)
  | '=' :: r => some ("=", r)
  | ':' :: '=' :: r => some (":=", r)
  | '.' :: '=' :: r => some (".=", r)
  | _ => none

/-- Matcher for the assignment regex
`^([A-Za-z_][A-Za-z0-9_-]*)\s*(\??\+?=|:=|\.=)\s*["\']?([^"\']*)` of
`_parse_bitbake`: maximal name run, optional spaces, operator, optional
spaces, at most one opening quote, then the (possibly empty) run of
non-quote characters as the raw value. -/
def matchVarAssign (cs : List Char) : Option (String × String × String) :=
  match cs with
  | c :: _ =>
    if isVarStart c then
      let name := cs.takeWhile isVarTail
      match matchOp ((cs.drop name.length).dropWhile pyIsSpace) with
      | some (op, r) =>
        let r2 := r.dropWhile pyIsSpace
        let r3 := match r2 with
                  | q :: t => if q == '"' || q == '\'' then t else r2
                  | [] => r2
        some (String.mk name, op, String.mk (r3.takeWhile (fun c2 => c2 ≠ '"' && c2 ≠ '\'')))
      | none => none
    else none
  | [] => none

/-- One alternative of `^(require|include)\s+["\'"]?([^"\'\s]+)` of
`_parse_bitbake`: the given directive word, at least one whitespace, an
optional opening quote, then a nonempty run of characters that are
neither quotes nor whitespace.  Returns `(directive, target)`. -/
def tryRequireDir (cs : List Char) (dir : String) : Option (String × String) :=
  let dl := dir.toList
  if cs.take dl.length == dl then
    let r := cs.drop dl.length
    let sp := r.takeWhile pyIsSpace
    if sp.isEmpty then none
    else
      let r2 := r.drop sp.length
      let r3 := match r2 with
                | q :: t => if q == '"' || q == '\'' then t else r2
                | [] => r2
      let v := r3.takeWhile (fun c => c ≠ '"' && c ≠ '\'' && !pyIsSpace c)
      if v.isEmpty then none else some (dir, String.mk v)
  else none

/-- Matcher for `^(require|include)\s+["\'"]?([^"\'\s]+)`: the
`require` alternative is tried first, as in the regex. -/
def matchRequire (cs : List Char) : Option (String × String) :=
  (tryRequireDir cs "require").orElse (fun _ => tryRequireDir cs "include")

/-- Matcher for `^inherit\s+(.+)` of `_parse_bitbake`: literal `inherit`,
at least one whitespace, then the nonempty rest of the line.  (On the
stripped lines the extractor feeds it, the rest after the whitespace run
cannot be empty unless the whole tail is whitespace, in which case
CPython still matches but `split()` of the captured group yields no
class names — identical emitted facts to returning `none` here.) -/
def matchInherit (cs : List Char) : Option String :=
  if cs.take 7 == "inherit".toList then
    let r := cs.drop 7
    let sp := r.takeWhile pyIsSpace
    if sp.isEmpty then none
    else
      let rest := r.drop sp.length
      if rest.isEmpty then none else some (String.mk rest)
  else none

/-- Matcher for `^#define\s+([A-Za-z_][A-Za-z0-9_]*)\s*(.*)` of
`_parse_header`: literal `#define`, at least one whitespace, a macro
name (`[A-Za-z_][A-Za-z0-9_]*`, no hyphen, unlike BitBake names), then
optional spaces and the greedy rest of the line as raw value. -/
def matchDefine (cs : List Char) : Option (String × String) :=
  if cs.take 7 == "#define".toList then
    let r := cs.drop 7
    let sp := r.takeWhile pyIsSpace
    if sp.isEmpty then none
    else
      let r2 := r.drop sp.length
      match r2 with
      | c :: _ =>
        if isVarStart c then
          let name := r2.takeWhile isWordChar
          some (String.mk name, String.mk ((r2.drop name.length).dropWhile pyIsSpace))
        else none
      | [] => none
  else none

/-! ## Fact data model (§3 of the spec) -/

/-- A symbol fact: one row of the `symbols` table before insertion. -/
structure Symbol where
  name : String
  value : String
  type : String
  line : Nat
deriving Repr, DecidableEq

/-- An include-edge fact: one row of the `includes` table before insertion. -/
structure IncludeEdge where
  to_path : String
  type : String
  line : Nat
deriving Repr, DecidableEq

/-- A device-tree node fact (`dt_nodes` row before insertion). -/
structure DtNode where
  path : String
  name : String
  label : Option String
  address : Option String
  start_line : Nat
  end_line : Nat
deriving Repr, DecidableEq

/-- A device-tree property fact, attributed by node path. -/
structure DtProperty where
  node_path : String
  name : String
  value : String
  line : Nat
deriving Repr, DecidableEq

/-- The per-file fact bundle built by `parse_file` (the `result` dict). -/
structure ParseResult where
  symbols : List Symbol := []
  includes : List IncludeEdge := []
  dt_nodes : List DtNode := []
  dt_properties : List DtProperty := []
deriving Repr, DecidableEq

/-! ## Recipe extractor (`_parse_bitbake`) -/

/-- Facts extracted by `_parse_bitbake` from one stripped line: the three
regexes are each tried on every line (the source has no `elif`/`continue`
between them), so their contributions are concatenated. -/
def bitbakeLine (stripped : List Char) (ln : Nat) : List Symbol × List IncludeEdge :=
  let syms : List Symbol :=
    match matchVarAssign stripped with
    | some (n, _, v) => [⟨n, pyTake 200 v, "variable", ln⟩]
    | none => []
  let incReq : List IncludeEdge :=
    match matchRequire stripped with
    | some (d, t) => [⟨t, d, ln⟩]
    | none => []
  let incInh : List IncludeEdge :=
    match matchInherit stripped with
    | some rest =>
      (pySplitWs rest.toList).map (fun cls => ⟨"classes/" ++ cls ++ ".bbclass", "inherit", ln⟩)
    | none => []
  (syms, incReq ++ incInh)

/-- Line loop of `_parse_bitbake`: 1-based line numbers, stripping each
line, accumulating facts in emission order. -/
def parseBitbakeLines : List String → Nat → ParseResult → ParseResult
  | [], _, acc => acc
  | l :: ls, ln, acc =>
    let f := bitbakeLine (pyStripList l.toList) ln
    parseBitbakeLines ls (ln + 1)
      { acc with symbols := acc.symbols ++ f.1, includes := acc.includes ++ f.2 }

/-- `_parse_bitbake` on full file content. -/
def parseBitbake (content : String) : ParseResult :=
  parseBitbakeLines (pySplitNewlines content) 1 {}

/-! ## Header extractor (`_parse_header`) -/

/-- Facts extracted by `_parse_header` from one stripped line: `#define`
symbols (value truncated to 200), `#include` edges. -/
def headerLine (stripped : List Char) (ln : Nat) : List Symbol × List IncludeEdge :=
  let syms : List Symbol :=
    match matchDefine stripped with
    | some (n, v) => [⟨n, pyTake 200 v, "define", ln⟩]
    | none => []
  let incs : List IncludeEdge :=
    match matchHashInclude stripped with
    | some p => [⟨p, "#include", ln⟩]
    | none => []
  (syms, incs)

/-- Line loop of `_parse_header`. -/
def parseHeaderLines : List String → Nat → ParseResult → ParseResult
  | [], _, acc => acc
  | l :: ls, ln, acc =>
    let f := headerLine (pyStripList l.toList) ln
    parseHeaderLines ls (ln + 1)
      { acc with symbols := acc.symbols ++ f.1, includes := acc.includes ++ f.2 }

/-- `_parse_header` on full file content. -/
def parseHeader (content : String) : ParseResult :=
  parseHeaderLines (pySplitNewlines content) 1 {}

/-! ## Hardware-tree extractor (`_parse_dts`) -/

/-- Scanner state of `_parse_dts`: the explicit scope stack of
`(parentPath, lineNumberAtEntry)` pairs (head = most recently pushed),
the `current_path` cursor, and the fact bundle built so far. -/
structure DtsState where
  node_stack : List (String × Nat) := []
  current_path : String := ""
  res : ParseResult := {}
deriving Repr, DecidableEq

/-- End-line backfill of the close handler: walk the emitted-node list and
update the LAST node whose path is `p` (the source iterates
`reversed(result['dt_nodes'])` and breaks at the first hit). -/
def updateLastEndLine : List DtNode → String → Nat → List DtNode
  | [], _, _ => []
  | n :: rest, p, ln =>
    if rest.any (fun m => m.path == p) then n :: updateLastEndLine rest p ln
    else if n.path == p then { n with end_line := ln } :: rest
    else n :: rest

/-- The path-computation rule of the node-open branch of `_parse_dts`:
an override name (starting `&`) is itself the path; otherwise the name
is appended to `current_path` with a `/` separator, or rooted at `/`
when no scope is open. -/
def dtsNewPath (cur nm : String) : String :=
  if pyStartsWith nm "&" then nm
  else if cur ≠ "" then cur ++ "/" ++ nm
  else "/" ++ nm

/-- One line of `_parse_dts`, on the stripped line: `#include` first, then
node-open (path computation, push, provisional node, optional label
symbol), then the close handler (pop, restore `current_path`, backfill
`end_line` of the last node with the closing path; ignored when the stack
is empty), then property lines (only while `current_path` is nonempty;
value truncated to 500; one `label_ref` symbol per `&identifier`
occurrence in the raw value). -/
def dtsLine (st : DtsState) (stripped : List Char) (ln : Nat) : DtsState :=
  match matchHashInclude stripped with
  | some p =>
    { st with res := { st.res with includes := st.res.includes ++ [⟨p, "#include", ln⟩] } }
  | none =>
  match matchNodeOpen stripped with
  | some (lab, name, addr) =>
    let new_path := dtsNewPath st.current_path name
    let labSyms : List Symbol :=
      match lab with
      | some l => [⟨l, new_path, "label", ln⟩]
      | none => []
    { node_stack := (st.current_path, ln) :: st.node_stack
      current_path := new_path
      res := { st.res with
                dt_nodes := st.res.dt_nodes ++ [⟨new_path, name, lab, addr, ln, ln⟩]
                symbols := st.res.symbols ++ labSyms } }
  | none =>
  if stripped == "\x7d;".toList || stripped == "\x7d".toList then
    match st.node_stack with
    | (parent, _) :: rest =>
      { node_stack := rest
        current_path := parent
        res := { st.res with
                  dt_nodes := updateLastEndLine st.res.dt_nodes st.current_path ln } }
    | [] => st
  else
    match matchDtProp stripped with
    | some (pn, pv) =>
      if st.current_path ≠ "" then
        let raw := pv.getD ""
        { st with res := { st.res with
            dt_properties :=
              st.res.dt_properties ++ [⟨st.current_path, pn, pyTake 500 raw, ln⟩]
            symbols :=
              st.res.symbols ++
                (findAmpRefs raw.toList).map (fun r => ⟨"&" ++ r, r, "label_ref", ln⟩) } }
      else st
    | none => st

/-- Line loop of `_parse_dts`. -/
def parseDtsLines : List String → Nat → DtsState → DtsState
  | [], _, st => st
  | l :: ls, ln, st => parseDtsLines ls (ln + 1) (dtsLine st (pyStripList l.toList) ln)

/-- `_parse_dts` on full file content. -/
def parseDts (content : String) : ParseResult :=
  (parseDtsLines (pySplitNewlines content) 1 {}).res

/-! ## Dispatch (`parse_file`) -/

/-- The fact-extraction dispatch of `parse_file`: `recipe` and `config`
files go to the BitBake extractor, `dts` to the tree extractor, `header`
to the header extractor; anything else yields no facts. -/
def parseFileFacts (ftype : String) (content : String) : ParseResult :=
  if ftype == "recipe" || ftype == "config" then parseBitbake content
  else if ftype == "dts" then parseDts content
  else if ftype == "header" then parseHeader content
  else {}

/-! ## Crawler (`scan_files`, `_match_pattern`) -/

/-- The extension→format table `FILE_TYPES` of the source. -/
def FILE_TYPES : List (String × String) :=
  [(".bb", "recipe"), (".bbappend", "recipe"), (".inc", "recipe"),
   (".conf", "config"), (".h", "header"), (".dts", "dts"), (".dtsi", "dts")]

/-- The fixed exclusion glob list `EXCLUDE_PATTERNS` of the source. -/
def EXCLUDE_PATTERNS : List String :=
  ["*/tmp/work/*", "*/.git/*", "*/sstate-cache/*", "*/downloads/*"]

/-- `fnmatch.fnmatch` on POSIX for the glob constructs the fixed pattern
list uses (`*` matching any — also slashed — substring, `?` any single
character, all other characters literally; `os.path.normcase` is the
identity on POSIX; the pattern list contains no `[...]` classes).
Anchored at both ends, like the regex `fnmatch.translate` produces; a
`*` succeeds when the rest of the pattern matches any suffix of the
string, which is exactly the `.*` of the translated regex. -/
def globMatch : List Char → List Char → Bool
  | [], s => s.isEmpty
  | '*' :: ps, s => s.tails.any (fun suf => globMatch ps suf)
  | '?' :: ps, s =>
    match s with
    | _ :: cs => globMatch ps cs
    | [] => false
  | p :: ps, s =>
    match s with
    | c :: cs => p == c && globMatch ps cs
    | [] => false

/-- `BspIndexer._match_pattern`: the path matches the glob directly, or
with a `/` prepended. -/
def matchPattern (path pattern : String) : Bool :=
  globMatch pattern.toList path.toList || globMatch pattern.toList ('/' :: path.toList)

/-- The exclusion test of the `scan_files` loop: some fixed pattern
matches the relative root. -/
def excludedRel (rel : String) : Bool :=
  EXCLUDE_PATTERNS.any (fun p => matchPattern rel p)

/-- `os.path.splitext(...)[1]`: the suffix from the last dot on, provided
some earlier character of the name is not a dot (all-dot prefixes carry
no extension, as in CPython). -/
def splitextExt (cs : List Char) : List Char :=
  match ((List.range cs.length).filter (fun i => cs.getD i ' ' == '.')).getLast? with
  | none => []
  | some i =>
    if (List.range i).all (fun j => cs.getD j ' ' == '.') then []
    else cs.drop i

/-- `os.path.splitext(filename)[1].lower()` (ASCII lower-casing). -/
def extOf (fname : String) : String :=
  String.mk ((splitextExt fname.toList).map Char.toLower)

/-- Look up the format family of a file name in `FILE_TYPES`. -/
def classifyFile (fname : String) : Option String :=
  (FILE_TYPES.find? (fun p => p.1 == extOf fname)).map (fun p => p.2)

mutual
/-- A directory tree: name, regular files, subdirectories (mutual with
the forest of children, so structural recursion is available). -/
inductive FTree where
  | node (name : String) (files : List String) (children : FForest)
inductive FForest where
  | nil
  | cons (t : FTree) (rest : FForest)
end

/-- Name of a directory. -/
def FTree.name : FTree → String
  | .node n _ _ => n

/-- One entry of the crawl result: components of the containing directory
relative to the project root, file name, and format classification. -/
structure ScanEntry where
  dirComps : List String
  fname : String
  ftype : String
deriving Repr, DecidableEq

/-- `os.path.relpath(root, project)` for a directory given by its
component list: `.` for the project root itself, else the components
joined by `/`. -/
def relStr : List String → String
  | [] => "."
  | c :: cs => String.intercalate "/" (c :: cs)

/-- The files of one visited directory that pass the extension table. -/
def typedFiles (comps : List String) (fs : List String) : List ScanEntry :=
  fs.filterMap (fun f => (classifyFile f).map (fun ty => ⟨comps, f, ty⟩))

mutual
/-- `BspIndexer.scan_files` as a walk over the directory tree: every
visited directory is first checked against the exclusion patterns; a
match skips its files and prunes the entire subtree (`dirs.clear()`),
otherwise its matching files are collected and the children are walked
with the directory name appended to the relative component list. -/
def scanTree : FTree → List String → List ScanEntry
  | .node _ fs ch, comps =>
    if excludedRel (relStr comps) then []
    else typedFiles comps fs ++ scanForest ch comps
def scanForest : FForest → List String → List ScanEntry
  | .nil, _ => []
  | .cons t rest, comps => scanTree t (comps ++ [t.name]) ++ scanForest rest comps
end

mutual
/-- Whether the component list names a (sub)directory of the tree. -/
def dirAtTree : FTree → List String → Bool
  | _, [] => true
  | .node _ _ ch, d :: ds => dirAtForest ch d ds
def dirAtForest : FForest → String → List String → Bool
  | .nil, _, _ => false
  | .cons t rest, d, ds => (t.name == d && dirAtTree t ds) || dirAtForest rest d ds
end

/-- One indexed file of the pipeline output: its location, classification
and extracted fact bundle.  Every FileRecord, Symbol, IncludeEdge,
TreeNode and TreeProperty of the snapshot hangs off exactly one such
entry. -/
structure TaggedFacts where
  dirComps : List String
  fname : String
  ftype : String
  facts : ParseResult
deriving Repr, DecidableEq

/-- The crawl-then-extract pipeline (`scan_files` followed by
`parse_file` on every crawled file); `content` abstracts the file
system's contents as a map from relative path components to file text. -/
def indexFacts (content : List String → String) (t : FTree) : List TaggedFacts :=
  (scanTree t []).map (fun e =>
    ⟨e.dirComps, e.fname, e.ftype, parseFileFacts e.ftype (content (e.dirComps ++ [e.fname]))⟩)

/-! ## Store writer (`insert_batch`, `run`)

The SQLite connection is modelled as the list of committed rows.  Within
`insert_batch` all inserts go into a pending copy of the state; the final
`conn.commit()` either publishes the whole pending state or — on commit
failure — publishes nothing (the implicit transaction that Python's
`sqlite3` opens at the first `INSERT` is rolled back, and `run` aborts
with the exception, so neither the remaining batches nor the metadata
writes happen).  Which commits fail is abstracted as a predicate on the
batch index.  Row ids are the `AUTOINCREMENT` / `lastrowid` values,
starting at 1. -/

/-- A row of one of the five fact tables. -/
inductive DbRow where
  | fileRow (id : Nat) (path name ftype : String) (size mtime : Nat)
  | symRow (id : Nat) (name value stype : String) (file_id line : Nat)
  | incRow (id : Nat) (from_file_id : Nat) (to_path itype : String) (line : Nat)
  | nodeRow (id file_id : Nat) (path name : String) (label address : Option String)
      (start_line end_line : Nat)
  | propRow (id node_id : Nat) (name value : String) (line : Nat)
deriving Repr, DecidableEq

/-- The committed store: rows plus the next `lastrowid` per table. -/
structure DbState where
  rows : List DbRow := []
  nextFile : Nat := 1
  nextSym : Nat := 1
  nextInc : Nat := 1
  nextNode : Nat := 1
  nextProp : Nat := 1
deriving Repr, DecidableEq

/-- One `parse_file` result handed to the writer. -/
structure FileResult where
  path : String
  name : String
  ftype : String
  size : Nat
  mtime : Nat
  res : ParseResult
deriving Repr, DecidableEq

/-- Whether a row is the `files` row for `path` (the target of the
`INSERT OR REPLACE` conflict on the unique path column). -/
def isFileRowFor (p : String) : DbRow → Bool
  | .fileRow _ fp _ _ _ _ => fp == p
  | _ => false

/-- The per-file body of the `insert_batch` loop: `INSERT OR REPLACE` of
the file record (the conflicting row, if any, is deleted and the new row
gets a fresh id, which `lastrowid` reports); then every symbol and
include edge tagged with that id; then the tree nodes in emission order,
building the per-file path→id map (later nodes overwrite earlier ones
with the same path, like the Python dict assignment); then the
properties, each resolved through that map and silently dropped when its
path is absent. -/
def insertFileResult (db : DbState) (r : FileResult) : DbState :=
  let fid := db.nextFile
  let db1 : DbState :=
    { db with
        rows := db.rows.filter (fun row => !isFileRowFor r.path row) ++
          [.fileRow fid r.path r.name r.ftype r.size r.mtime]
        nextFile := fid + 1 }
  let db2 := r.res.symbols.foldl
    (fun d s =>
      { d with rows := d.rows ++ [.symRow d.nextSym s.name s.value s.type fid s.line]
               nextSym := d.nextSym + 1 }) db1
  let db3 := r.res.includes.foldl
    (fun d i =>
      { d with rows := d.rows ++ [.incRow d.nextInc fid i.to_path i.type i.line]
               nextInc := d.nextInc + 1 }) db2
  let dm := r.res.dt_nodes.foldl
    (fun (dm : DbState × List (String × Nat)) n =>
      ({ dm.1 with
           rows := dm.1.rows ++
             [.nodeRow dm.1.nextNode fid n.path n.name n.label n.address n.start_line n.end_line]
           nextNode := dm.1.nextNode + 1 },
       (n.path, dm.1.nextNode) :: dm.2)) (db3, [])
  r.res.dt_properties.foldl
    (fun d p =>
      match dm.2.lookup p.node_path with
      | some nid =>
        { d with rows := d.rows ++ [.propRow d.nextProp nid p.name p.value p.line]
                 nextProp := d.nextProp + 1 }
      | none => d) dm.1

/-- All inserts of one batch (`None` results of failed parses are
skipped, as in the loop's `if not result: continue`). -/
def applyBatch (db : DbState) (batch : List (Option FileResult)) : DbState :=
  batch.foldl (fun d r? => match r? with
                           | some r => insertFileResult d r
                           | none => d) db

/-- The sequential batch loop of `parse_files_parallel` together with the
transactional `conn.commit()` at the end of each `insert_batch` call:
batch `i` becomes visible if `ok i` holds, otherwise the transaction is
rolled back and the run aborts with the store still in its pre-batch
state. -/
def runBatches (ok : Nat → Bool) : List (List (Option FileResult)) → Nat → DbState →
    Except DbState DbState
  | [], _, db => .ok db
  | b :: bs, i, db =>
    if ok i then runBatches ok bs (i + 1) (applyBatch db b)
    else .error db

/-- Outcome of a whole run: final visible store, whether the metadata /
summary writes at the end of `run` happened, and whether the run
completed. -/
structure RunOutcome where
  db : DbState
  metadataWritten : Bool
  completed : Bool
deriving Repr, DecidableEq

/-- `BspIndexer.run` (restricted to the write path): process the batches
sequentially; on success write the metadata and report completion, on a
failed commit abort — no metadata, no completion, store as committed so
far. -/
def runIndexer (ok : Nat → Bool) (batches : List (List (Option FileResult))) : RunOutcome :=
  match runBatches ok batches 0 {} with
  | .ok db => ⟨db, true, true⟩
  | .error db => ⟨db, false, false⟩

/-! ## Spec-side reference definitions for the path-computation claim -/

/-- Modelled from the spec: "the node's path exactly equals the
concatenation of all ancestor names joined by `/`, rooted at `/`" — the
path of a chain of open-scope names. -/
def openNamesPath (ns : List String) : String :=
  ns.foldl (fun acc nm => acc ++ "/" ++ nm) ""

/-- Reference scanner state keeping raw name chains instead of path
strings: the stack of previously open chains, the current chain, and the
chain of every emitted node. -/
structure SpecChainState where
  stack : List (List String) := []
  cur : List String := []
  chains : List (List String) := []
deriving Repr, DecidableEq

/-- Reference line step, following the spec's wording: a node-opening
line pushes the current chain and appends the node name to it; a
scope-closing line pops; everything else leaves the chains alone.  It
reuses the source's matchers only to identify line kinds. -/
def specChainLine (st : SpecChainState) (stripped : List Char) : SpecChainState :=
  match matchHashInclude stripped with
  | some _ => st
  | none =>
  match matchNodeOpen stripped with
  | some (_, nm, _) =>
    { stack := st.cur :: st.stack
      cur := st.cur ++ [nm]
      chains := st.chains ++ [st.cur ++ [nm]] }
  | none =>
  if stripped == "\x7d;".toList || stripped == "\x7d".toList then
    match st.stack with
    | c :: rest => { st with stack := rest, cur := c }
    | [] => st
  else st

/-- Reference line loop. -/
def specChainLines : List String → SpecChainState → SpecChainState
  | [], st => st
  | l :: ls, st => specChainLines ls (specChainLine st (pyStripList l.toList))

/-- The ancestor-name chain of every node the reference scanner emits for
this content, in emission order. -/
def specChains (content : String) : List (List String) :=
  (specChainLines (pySplitNewlines content) {}).chains

/-- A single line contains no override-style node open (`&name \x7b`). -/
def noOverrideLine (stripped : List Char) : Bool :=
  match matchNodeOpen stripped with
  | some (_, nm, _) => !pyStartsWith nm "&"
  | none => true

/-- No line of the content opens an override node. -/
def noOverride (content : String) : Bool :=
  (pySplitNewlines content).all (fun l => noOverrideLine (pyStripList l.toList))

/-! ## Claim theorems -/

/-- C10: files classified `config` (extension `.conf`) are dispatched to
the same extractor as `recipe` files; the emitted facts are exactly the
Recipe Extractor's output on the same content. -/
theorem config_dispatch_same_as_recipe :
    (∀ fname : String, extOf fname = ".conf" → classifyFile fname = some "config") ∧
    (∀ content : String,
      parseFileFacts "config" content = parseFileFacts "recipe" content ∧
      parseFileFacts "config" content = parseBitbake content) := by
  constructor
  · intro fname h
    simp [classifyFile, FILE_TYPES, h]
  · intro content
    exact ⟨rfl, rfl⟩

/-- Witness for C10: a concrete `.conf` file name is classified `config`,
and the dispatch agrees with the Recipe Extractor on concrete content. -/
theorem config_dispatch_same_as_recipe_witness :
    classifyFile "local.conf" = some "config" ∧
    parseFileFacts "config" "MACHINE = \"qemu\"" = parseBitbake "MACHINE = \"qemu\"" :=
  ⟨config_dispatch_same_as_recipe.1 "local.conf" (by decide),
   (config_dispatch_same_as_recipe.2 "MACHINE = \"qemu\"").2⟩

/-- The directive captured by one require/include alternative is the
directive it was asked for. -/
theorem tryRequireDir_fst {cs : List Char} {dir d t : String}
    (h : tryRequireDir cs dir = some (d, t)) : d = dir := by
  unfold tryRequireDir at h
  simp only at h
  split at h
  · split at h
    · exact absurd h (by simp)
    · split at h
      · exact absurd h (by simp)
      · simp only [Option.some.injEq, Prod.mk.injEq] at h
        exact h.1.symm
  · exact absurd h (by simp)

/-- The directive captured by the require/include matcher is one of the
two literals. -/
theorem matchRequire_directive {cs : List Char} {d t : String}
    (h : matchRequire cs = some (d, t)) : d = "require" ∨ d = "include" := by
  unfold matchRequire at h
  rcases h1 : tryRequireDir cs "require" with _ | p
  · rw [h1] at h
    simp only [Option.orElse, Option.none_orElse] at h
    exact Or.inr (tryRequireDir_fst h)
  · rw [h1] at h
    simp only [Option.orElse, Option.some_orElse] at h
    cases h
    exact Or.inl (tryRequireDir_fst h1)

/-- The include-edge component of one extracted line is the
concatenation of the require/include match and the inherit match (plain
unfolding of the definition, stated once so the claim proofs can case on
the two matchers). -/
theorem bitbakeLine_snd (stripped : List Char) (ln : Nat) :
    (bitbakeLine stripped ln).2 =
      (match matchRequire stripped with
       | some (d, t) => [(⟨t, d, ln⟩ : IncludeEdge)]
       | none => []) ++
      (match matchInherit stripped with
       | some rest => (pySplitWs rest.toList).map
           (fun cls => (⟨"classes/" ++ cls ++ ".bbclass", "inherit", ln⟩ : IncludeEdge))
       | none => []) := rfl

/-- C8: an `inherit` line yields one IncludeEdge of kind `inherit` per
whitespace-separated class name, targeting `classes/<name>.bbclass`; in
particular `inherit core systemd` yields exactly the two edges
`classes/core.bbclass` and `classes/systemd.bbclass`. -/
theorem inherit_edges_per_class :
    (∀ (stripped : List Char) (ln : Nat) (rest : String),
      matchInherit stripped = some rest →
      (bitbakeLine stripped ln).2.filter (fun e => e.type == "inherit") =
        (pySplitWs rest.toList).map
          (fun cls => ⟨"classes/" ++ cls ++ ".bbclass", "inherit", ln⟩)) ∧
    parseBitbake "inherit core systemd" =
      { includes := [⟨"classes/core.bbclass", "inherit", 1⟩,
                     ⟨"classes/systemd.bbclass", "inherit", 1⟩] } := by
  constructor
  · intro stripped ln rest h
    rw [bitbakeLine_snd, h, List.filter_append]
    have hmap : ((pySplitWs rest.toList).map
        (fun cls => (⟨"classes/" ++ cls ++ ".bbclass", "inherit", ln⟩ : IncludeEdge))).filter
          (fun e => e.type == "inherit") =
        (pySplitWs rest.toList).map
          (fun cls => (⟨"classes/" ++ cls ++ ".bbclass", "inherit", ln⟩ : IncludeEdge)) := by
      refine List.filter_eq_self.mpr ?_
      intro e he
      rcases List.mem_map.mp he with ⟨cls, _, rfl⟩
      rfl
    rcases hr : matchRequire stripped with _ | ⟨d, t⟩
    · simp [hmap]
    · have hd : (d == "inherit") = false := by
        rcases matchRequire_directive hr with h1 | h1 <;> subst h1 <;> rfl
      simp [List.filter_cons, hd, hmap]
  · decide

/-- Witness for C8: the general per-class equation applied at the
concrete line `inherit a b`. -/
theorem inherit_edges_per_class_witness :
    matchInherit (pyStripList "inherit a b".toList) = some "a b" ∧
    (bitbakeLine (pyStripList "inherit a b".toList) 3).2.filter
        (fun e => e.type == "inherit") =
      (pySplitWs "a b".toList).map
        (fun cls => ⟨"classes/" ++ cls ++ ".bbclass", "inherit", 3⟩) :=
  ⟨by decide, inherit_edges_per_class.1 (pyStripList "inherit a b".toList) 3 "a b" (by decide)⟩

/-- C6 counterexample: the BitBake weak-default ("lazy") assignment
spelling `??=` is not matched by the assignment regex (`\??\+?=` allows
at most one `?`), so `FOO ??= "bar"` yields no fact at all — the claim
that lazy-assign lines yield a variable Symbol fails on this input. -/
theorem weak_default_assign_unrecognized_cex :
    parseBitbake "FOO ??= \"bar\"" = ({} : ParseResult) := by decide

/-- C6 (amended): assignment lines with the `=`, `?=`, `+=`, `?+=`, `:=`
and `.=` operator spellings yield exactly one variable Symbol with
length-truncated value (the weak-default `??=` spelling is not
recognized); `FOO = "bar"` yields exactly one Symbol (FOO, variable,
bar). -/
theorem bitbake_assignment_spellings :
    (∀ (stripped : List Char) (ln : Nat) (n op v : String),
      matchVarAssign stripped = some (n, op, v) →
      (bitbakeLine stripped ln).1 = [⟨n, pyTake 200 v, "variable", ln⟩]) ∧
    (∀ op ∈ ["=", "?=", "+=", "?+=", ":=", ".="],
      (parseBitbake ("FOO " ++ op ++ " \"bar\"")).symbols =
        [⟨"FOO", "bar", "variable", 1⟩]) ∧
    parseBitbake "FOO = \"bar\"" = { symbols := [⟨"FOO", "bar", "variable", 1⟩] } := by
  refine ⟨?_, by decide, by decide⟩
  intro stripped ln n op v h
  simp only [bitbakeLine, h]

/-- Witness for C6: the general equation applied at `FOO ?= "1"`. -/
theorem bitbake_assignment_spellings_witness :
    matchVarAssign (pyStripList "FOO ?= \"1\"".toList) = some ("FOO", "?=", "1") ∧
    (bitbakeLine (pyStripList "FOO ?= \"1\"".toList) 7).1 =
      [⟨"FOO", pyTake 200 "1", "variable", 7⟩] :=
  ⟨by decide,
   bitbake_assignment_spellings.1 (pyStripList "FOO ?= \"1\"".toList) 7 "FOO" "?=" "1" (by decide)⟩

/-- C7 counterexample: the three per-line patterns of the Recipe
Extractor are not mutually exclusive — the single line `require = "1"`
matches both the assignment regex (Symbol `require`, value `1`) and the
require/include regex (IncludeEdge to `=`), so one line emits facts of
two different kinds. -/
theorem bitbake_line_two_fact_kinds_cex :
    parseBitbake "require = \"1\"" =
      { symbols := [⟨"require", "1", "variable", 1⟩],
        includes := [⟨"=", "require", 1⟩] } := by decide

/-- C7 (amended): each pattern contributes at most one fact set per line
— at most one variable Symbol and at most one require/include edge, and
every edge is of kind require, include or inherit — but the three
patterns are matched independently rather than exclusively, so a line
matching several patterns emits facts of several kinds (witnessed by
`require = "1"`). -/
theorem bitbake_patterns_independent :
    (∀ (stripped : List Char) (ln : Nat), (bitbakeLine stripped ln).1.length ≤ 1) ∧
    (∀ (stripped : List Char) (ln : Nat),
      ((bitbakeLine stripped ln).2.filter
        (fun e => e.type == "require" || e.type == "include")).length ≤ 1) ∧
    (∀ (stripped : List Char) (ln : Nat) (e : IncludeEdge),
      e ∈ (bitbakeLine stripped ln).2 →
      e.type = "require" ∨ e.type = "include" ∨ e.type = "inherit") ∧
    ((parseBitbake "require = \"1\"").symbols.length = 1 ∧
     (parseBitbake "require = \"1\"").includes.length = 1) := by
  refine ⟨?_, ?_, ?_, by decide, by decide⟩
  · intro stripped ln
    rcases hv : matchVarAssign stripped with _ | ⟨⟨n, op, v⟩⟩ <;>
      simp [bitbakeLine, hv]
  · intro stripped ln
    rw [bitbakeLine_snd, List.filter_append]
    have hinh : (match matchInherit stripped with
        | some rest => (pySplitWs rest.toList).map
            (fun cls => (⟨"classes/" ++ cls ++ ".bbclass", "inherit", ln⟩ : IncludeEdge))
        | none => ([] : List IncludeEdge)).filter
          (fun e : IncludeEdge => e.type == "require" || e.type == "include") = [] := by
      rcases matchInherit stripped with _ | rest
      · rfl
      · refine List.filter_eq_nil_iff.mpr ?_
        intro e he
        rcases List.mem_map.mp he with ⟨cls, _, rfl⟩
        simp
    rw [hinh, List.append_nil]
    rcases hr : matchRequire stripped with _ | ⟨d, t⟩
    · simp
    · simp only [hr, List.filter_cons, List.filter_nil]
      split <;> simp
  · intro stripped ln e he
    rw [bitbakeLine_snd] at he
    rcases List.mem_append.mp he with h1 | h1
    · rcases hr : matchRequire stripped with _ | ⟨d, t⟩ <;> rw [hr] at h1 <;> simp at h1
      subst h1
      rcases matchRequire_directive hr with h2 | h2
      · exact Or.inl h2
      · exact Or.inr (Or.inl h2)
    · rcases hi : matchInherit stripped with _ | rest <;> rw [hi] at h1 <;> simp at h1
      rcases h1 with ⟨cls, _, rfl⟩
      exact Or.inr (Or.inr rfl)

/-- Witness for C7: the bounds and the kind classification applied at
the concrete line `require = "1"`. -/
theorem bitbake_patterns_independent_witness :
    (bitbakeLine (pyStripList "require = \"1\"".toList) 1).1.length ≤ 1 ∧
    (⟨"=", "require", 1⟩ : IncludeEdge) ∈
      (bitbakeLine (pyStripList "require = \"1\"".toList) 1).2 ∧
    ((⟨"=", "require", 1⟩ : IncludeEdge).type = "require" ∨
     (⟨"=", "require", 1⟩ : IncludeEdge).type = "include" ∨
     (⟨"=", "require", 1⟩ : IncludeEdge).type = "inherit") :=
  ⟨bitbake_patterns_independent.1 (pyStripList "require = \"1\"".toList) 1,
   by decide,
   bitbake_patterns_independent.2.2.1 (pyStripList "require = \"1\"".toList) 1
     ⟨"=", "require", 1⟩ (by decide)⟩

/-- C3 counterexample: the property-line pattern is not applied to lines
that already matched the node-opening pattern.  The line `x=\x7ba\x7d;`
matches the property regex (name `x`, value `\x7ba\x7d`) and is
encountered while a scope is open, yet the extractor emits no
TreeProperty for it: the node-open regex also matches (lazy `\S+?` takes
the name `x=` and the brace inside the value closes the match), and that
branch wins, emitting a TreeNode instead. -/
theorem dts_property_shadowed_by_node_open_cex :
    matchDtProp (pyStripList "x=\x7ba\x7d;".toList) = some ("x", some "\x7ba\x7d") ∧
    (parseDtsLines ["/ \x7b"] 1 {}).current_path = "//" ∧
    (parseDts "/ \x7b\nx=\x7ba\x7d;\n\x7d;").dt_properties = [] ∧
    (parseDts "/ \x7b\nx=\x7ba\x7d;\n\x7d;").dt_nodes.length = 2 := by decide

/-- C3 (amended): while a scope is open, every line matching
`name [= value];` that is not consumed by an earlier pattern (the
preprocessor-include or node-opening regex) yields exactly one
TreeProperty attributed to the node at `current_path` with the value
truncated to 500 characters, plus one `label_ref` Symbol per
`&identifier` occurrence in the raw value, and no TreeNode; with no
scope open, such a line yields nothing at all. -/
theorem dts_property_line_amended :
    ∀ (st : DtsState) (stripped : List Char) (ln : Nat) (pn : String) (pv : Option String),
      matchHashInclude stripped = none →
      matchNodeOpen stripped = none →
      matchDtProp stripped = some (pn, pv) →
      (st.current_path ≠ "" →
        (dtsLine st stripped ln).res.dt_properties =
          st.res.dt_properties ++ [⟨st.current_path, pn, pyTake 500 (pv.getD ""), ln⟩] ∧
        (dtsLine st stripped ln).res.symbols =
          st.res.symbols ++ (findAmpRefs (pv.getD "").toList).map
            (fun r => ⟨"&" ++ r, r, "label_ref", ln⟩) ∧
        (dtsLine st stripped ln).res.dt_nodes = st.res.dt_nodes) ∧
      (st.current_path = "" → dtsLine st stripped ln = st) := by
  intro st stripped ln pn pv hInc hOpen hProp
  have hn : matchDtProp ['\x7d', ';'] = none := by decide
  have hn2 : matchDtProp ['\x7d'] = none := by decide
  have h1 : stripped ≠ ['\x7d', ';'] := by
    intro h
    rw [h, hn] at hProp
    exact Option.noConfusion hProp
  have h2 : stripped ≠ ['\x7d'] := by
    intro h
    rw [h, hn2] at hProp
    exact Option.noConfusion hProp
  constructor
  · intro hcp
    refine ⟨?_, ?_, ?_⟩ <;> simp [dtsLine, hInc, hOpen, hProp, hcp, h1, h2]
  · intro hcp
    simp [dtsLine, hInc, hOpen, hProp, hcp, h1, h2]

/-- Witness for C3's amended theorem: inside the node opened by `n \x7b`,
the property line `status = <&x>;` appends exactly one property. -/
theorem dts_property_line_amended_witness :
    (dtsLine (parseDtsLines ["n \x7b"] 1 {}) (pyStripList "status = <&x>;".toList) 2).res.dt_properties =
      (parseDtsLines ["n \x7b"] 1 {}).res.dt_properties ++
        [⟨(parseDtsLines ["n \x7b"] 1 {}).current_path, "status", pyTake 500 "<&x>", 2⟩] :=
  ((dts_property_line_amended (parseDtsLines ["n \x7b"] 1 {})
      (pyStripList "status = <&x>;".toList) 2 "status" (some "<&x>")
      (by decide) (by decide) (by decide)).1 (by decide)).1

/-- Error analysis of the batch loop: an aborted run stops at the first
failing commit, and the resulting store is the fold of exactly the
batches before it. -/
theorem runBatches_error_splits (ok : Nat → Bool) :
    ∀ (bs : List (List (Option FileResult))) (i : Nat) (db db2 : DbState),
      runBatches ok bs i db = .error db2 →
      ∃ k, k < bs.length ∧ ok (i + k) = false ∧ (∀ j, j < k → ok (i + j) = true) ∧
        db2 = (bs.take k).foldl applyBatch db := by
  intro bs
  induction bs with
  | nil =>
    intro i db db2 h
    exact absurd h (by simp [runBatches])
  | cons b rest ih =>
    intro i db db2 h
    unfold runBatches at h
    by_cases hok : ok i
    · rw [if_pos hok] at h
      rcases ih (i + 1) (applyBatch db b) db2 h with ⟨k, hk, hfail, hprev, hdb⟩
      refine ⟨k + 1, by simpa using Nat.succ_lt_succ hk, ?_, ?_, ?_⟩
      · rw [show i + (k + 1) = i + 1 + k by omega]
        exact hfail
      · intro j hj
        cases j with
        | zero => simpa using hok
        | succ j =>
          rw [show i + (j + 1) = i + 1 + j by omega]
          exact hprev j (Nat.lt_of_succ_lt_succ hj)
      · simpa using hdb
    · rw [if_neg hok] at h
      simp only [Except.error.injEq] at h
      subst h
      exact ⟨0, by simp, by simpa using hok, fun j hj => absurd hj (Nat.not_lt_zero j), by simp⟩

/-- C9: if the write transaction of a batch cannot be committed, the run
aborts at that batch: the visible store is exactly the fold of the
previously committed batches (no fact of the failed batch is visible),
and neither the metadata writes nor completion are reached. -/
theorem batch_commit_failure_atomic :
    ∀ (ok : Nat → Bool) (batches : List (List (Option FileResult))) (db2 : DbState),
      runBatches ok batches 0 {} = .error db2 →
      (∃ k, k < batches.length ∧ ok k = false ∧ (∀ j, j < k → ok j = true) ∧
        db2 = (batches.take k).foldl applyBatch {}) ∧
      (runIndexer ok batches).db = db2 ∧
      (runIndexer ok batches).metadataWritten = false ∧
      (runIndexer ok batches).completed = false := by
  intro ok batches db2 h
  constructor
  · rcases runBatches_error_splits ok batches 0 {} db2 h with ⟨k, hk, hf, hp, hdb⟩
    exact ⟨k, hk, by simpa using hf, fun j hj => by simpa using hp j hj, hdb⟩
  · unfold runIndexer
    rw [h]
    exact ⟨rfl, rfl, rfl⟩

/-- Concrete failing-commit scenario for the C9 witness: two one-file
batches, the second commit fails. -/
def demoOk : Nat → Bool := fun i => i == 0

/-- A parse result of one recipe file for the C9 witness. -/
def demoFileResult : FileResult :=
  ⟨"a.bb", "a.bb", "recipe", 3, 4,
   { symbols := [⟨"PN", "a", "variable", 1⟩], includes := [⟨"x.inc", "require", 2⟩] }⟩

/-- The two batches of the C9 witness. -/
def demoBatches : List (List (Option FileResult)) := [[some demoFileResult], [some demoFileResult]]

/-- The store committed before the failing batch of the C9 witness. -/
def demoDb : DbState := applyBatch {} [some demoFileResult]

/-- Witness for C9: on the concrete two-batch run whose second commit
fails, the theorem yields the abort shape — store equals the first
batch's fold only, no metadata, no completion. -/
theorem batch_commit_failure_atomic_witness :
    (∃ k, k < demoBatches.length ∧ demoOk k = false ∧ (∀ j, j < k → demoOk j = true) ∧
      demoDb = (demoBatches.take k).foldl applyBatch {}) ∧
    (runIndexer demoOk demoBatches).db = demoDb ∧
    (runIndexer demoOk demoBatches).metadataWritten = false ∧
    (runIndexer demoOk demoBatches).completed = false :=
  batch_commit_failure_atomic demoOk demoBatches demoDb rfl

/-- Truncation really bounds the length: `s[:n]` has at most `n`
characters. -/
theorem pyTake_length_le (n : Nat) (s : String) : (pyTake n s).length ≤ n := by
  simp only [pyTake, String.length]
  simp [Nat.min_le_left]

/-- The symbol component of one extracted BitBake line (plain unfolding,
for case analysis in proofs). -/
theorem bitbakeLine_fst (stripped : List Char) (ln : Nat) :
    (bitbakeLine stripped ln).1 =
      (match matchVarAssign stripped with
       | some (n, _, v) => [(⟨n, pyTake 200 v, "variable", ln⟩ : Symbol)]
       | none => []) := rfl

/-- The symbol component of one extracted header line (plain unfolding,
for case analysis in proofs). -/
theorem headerLine_fst (stripped : List Char) (ln : Nat) :
    (headerLine stripped ln).1 =
      (match matchDefine stripped with
       | some (n, v) => [(⟨n, pyTake 200 v, "define", ln⟩ : Symbol)]
       | none => []) := rfl

/-- Every symbol value accumulated by the BitBake line loop stays within
the 200-character bound. -/
theorem parseBitbakeLines_symbol_bound :
    ∀ (ls : List String) (ln : Nat) (acc : ParseResult),
      (∀ s ∈ acc.symbols, s.value.length ≤ 200) →
      ∀ s ∈ (parseBitbakeLines ls ln acc).symbols, s.value.length ≤ 200 := by
  intro ls
  induction ls with
  | nil =>
    intro ln acc h
    simpa [parseBitbakeLines] using h
  | cons l rest ih =>
    intro ln acc h
    simp only [parseBitbakeLines]
    refine ih (ln + 1) _ ?_
    intro s2 hs2
    simp only [List.mem_append] at hs2
    rcases hs2 with h2 | h2
    · exact h s2 h2
    · rw [bitbakeLine_fst] at h2
      rcases hv : matchVarAssign (pyStripList l.toList) with _ | ⟨⟨n, op, v⟩⟩ <;>
        rw [hv] at h2 <;> simp at h2
      subst h2
      exact pyTake_length_le 200 v

/-- Every symbol value accumulated by the header line loop stays within
the 200-character bound. -/
theorem parseHeaderLines_symbol_bound :
    ∀ (ls : List String) (ln : Nat) (acc : ParseResult),
      (∀ s ∈ acc.symbols, s.value.length ≤ 200) →
      ∀ s ∈ (parseHeaderLines ls ln acc).symbols, s.value.length ≤ 200 := by
  intro ls
  induction ls with
  | nil =>
    intro ln acc h
    simpa [parseHeaderLines] using h
  | cons l rest ih =>
    intro ln acc h
    simp only [parseHeaderLines]
    refine ih (ln + 1) _ ?_
    intro s2 hs2
    simp only [List.mem_append] at hs2
    rcases hs2 with h2 | h2
    · exact h s2 h2
    · rw [headerLine_fst] at h2
      rcases hv : matchDefine (pyStripList l.toList) with _ | ⟨⟨n, v⟩⟩ <;>
        rw [hv] at h2 <;> simp at h2
      subst h2
      exact pyTake_length_le 200 v

/-- One tree-scanner step keeps every stored property value within the
500-character bound. -/
theorem dtsLine_prop_bound (st : DtsState) (stripped : List Char) (ln : Nat)
    (h : ∀ p ∈ st.res.dt_properties, p.value.length ≤ 500) :
    ∀ p ∈ (dtsLine st stripped ln).res.dt_properties, p.value.length ≤ 500 := by
  intro p hp
  unfold dtsLine at hp
  split at hp
  · exact h p hp
  · split at hp
    · exact h p hp
    · split at hp
      · split at hp
        · exact h p hp
        · exact h p hp
      · split at hp
        · split at hp
          · rcases List.mem_append.mp hp with h2 | h2
            · exact h p h2
            · simp only [List.mem_singleton] at h2
              subst h2
              exact pyTake_length_le 500 _
          · exact h p hp
        · exact h p hp

/-- Every property value accumulated by the tree-scanner loop stays
within the 500-character bound. -/
theorem parseDtsLines_prop_bound :
    ∀ (ls : List String) (ln : Nat) (st : DtsState),
      (∀ p ∈ st.res.dt_properties, p.value.length ≤ 500) →
      ∀ p ∈ (parseDtsLines ls ln st).res.dt_properties, p.value.length ≤ 500 := by
  intro ls
  induction ls with
  | nil =>
    intro ln st h
    simpa [parseDtsLines] using h
  | cons l rest ih =>
    intro ln st h
    simp only [parseDtsLines]
    exact ih (ln + 1) _ (dtsLine_prop_bound st (pyStripList l.toList) ln h)

/-- C5 counterexample: label Symbols are NOT truncated — their value is
the full computed node path.  Twenty-five nested nodes with 21-character
names produce a label Symbol whose value is 550 characters long,
exceeding both the 200-character symbol bound and the 500-character
property bound, so the claim that every emitted Symbol value respects
the truncation bound fails. -/
theorem label_symbol_value_unbounded_cex :
    ((parseDts (String.intercalate "\n"
        (List.replicate 24 "aaaaaaaaaaaaaaaaaaaaa \x7b" ++
         ["L: aaaaaaaaaaaaaaaaaaaaa \x7b"]))).symbols.map
      (fun s => (s.type, s.value.length))) = [("label", 550)] ∧ 500 < 550 ∧ 200 < 550 := by
  constructor
  · set_option maxRecDepth 10000 in decide
  · exact ⟨by omega, by omega⟩

/-- C5 (amended): Symbols of kind variable and define are stored with
values truncated to at most 200 characters — exactly 200 when the raw
captured value is longer — and TreeProperty values to at most 500,
exactly 500 when longer (the stored values are literally `raw[:200]` /
`raw[:500]`, and `s[:n]` has length `n` whenever `n ≤ s.length`); but
label Symbols store the full computed node path and label-reference
Symbols the bare referenced identifier, both without any truncation (so
they can exceed any bound, as the counterexample shows). -/
theorem symbol_value_truncation_amended :
    (∀ (content : String) (s : Symbol),
      s ∈ (parseBitbake content).symbols → s.value.length ≤ 200) ∧
    (∀ (content : String) (s : Symbol),
      s ∈ (parseHeader content).symbols → s.value.length ≤ 200) ∧
    (∀ (content : String) (p : DtProperty),
      p ∈ (parseDts content).dt_properties → p.value.length ≤ 500) ∧
    (∀ (n : Nat) (s : String), n ≤ s.length → (pyTake n s).length = n) ∧
    (∀ (stripped : List Char) (ln : Nat) (n op v : String),
      matchVarAssign stripped = some (n, op, v) →
      (bitbakeLine stripped ln).1 = [⟨n, pyTake 200 v, "variable", ln⟩]) ∧
    (∀ (stripped : List Char) (ln : Nat) (n v : String),
      matchDefine stripped = some (n, v) →
      (headerLine stripped ln).1 = [⟨n, pyTake 200 v, "define", ln⟩]) ∧
    (∀ (st : DtsState) (stripped : List Char) (ln : Nat) (l nm : String) (ad : Option String),
      matchHashInclude stripped = none →
      matchNodeOpen stripped = some (some l, nm, ad) →
      (dtsLine st stripped ln).res.symbols =
        st.res.symbols ++ [⟨l, dtsNewPath st.current_path nm, "label", ln⟩]) ∧
    (∀ (st : DtsState) (stripped : List Char) (ln : Nat) (pn : String) (pv : Option String),
      matchHashInclude stripped = none →
      matchNodeOpen stripped = none →
      matchDtProp stripped = some (pn, pv) →
      st.current_path ≠ "" →
      (dtsLine st stripped ln).res.symbols =
        st.res.symbols ++ (findAmpRefs (pv.getD "").toList).map
          (fun r => ⟨"&" ++ r, r, "label_ref", ln⟩) ∧
      (dtsLine st stripped ln).res.dt_properties =
        st.res.dt_properties ++ [⟨st.current_path, pn, pyTake 500 (pv.getD ""), ln⟩]) := by
  refine ⟨?_, ?_, ?_, ?_, ?_, ?_, ?_, ?_⟩
  · intro content s hs
    exact parseBitbakeLines_symbol_bound (pySplitNewlines content) 1 {} (by simp) s hs
  · intro content s hs
    exact parseHeaderLines_symbol_bound (pySplitNewlines content) 1 {} (by simp) s hs
  · intro content p hp
    exact parseDtsLines_prop_bound (pySplitNewlines content) 1 {} (by simp) p hp
  · intro n s hn
    simp only [String.length, String.toList] at hn
    simp only [pyTake, String.length, String.toList, List.length_take]
    omega
  · intro stripped ln n op v h
    simp only [bitbakeLine, h]
  · intro stripped ln n v h
    simp only [headerLine, h]
  · intro st stripped ln l nm ad hInc hOpen
    simp [dtsLine, hInc, hOpen]
  · intro st stripped ln pn pv hInc hOpen hProp hcp
    have hn : matchDtProp ['\x7d', ';'] = none := by decide
    have hn2 : matchDtProp ['\x7d'] = none := by decide
    have h1 : stripped ≠ ['\x7d', ';'] := by
      intro h
      rw [h, hn] at hProp
      exact Option.noConfusion hProp
    have h2 : stripped ≠ ['\x7d'] := by
      intro h
      rw [h, hn2] at hProp
      exact Option.noConfusion hProp
    refine ⟨?_, ?_⟩ <;> simp [dtsLine, hInc, hOpen, hProp, hcp, h1, h2]

set_option maxRecDepth 4000 in
/-- Witness for C5's amended theorem: the bounds evaluated on concrete
extractions, exact truncation of a 300-character raw value to length
200, the label equation at a labelled node line, and the untruncated
label-reference symbols of a concrete property line. -/
theorem symbol_value_truncation_amended_witness :
    (∀ s ∈ (parseBitbake "A = \"v\"").symbols, s.value.length ≤ 200) ∧
    (∀ p ∈ (parseDts "n \x7b\nreg = <1>;\n\x7d;").dt_properties, p.value.length ≤ 500) ∧
    (pyTake 200 (String.mk (List.replicate 300 'a'))).length = 200 ∧
    (bitbakeLine (pyStripList "A = \"v\"".toList) 4).1 =
      [⟨"A", pyTake 200 "v", "variable", 4⟩] ∧
    (dtsLine {} (pyStripList "L: n \x7b".toList) 1).res.symbols =
      ([] : List Symbol) ++ [⟨"L", dtsNewPath "" "n", "label", 1⟩] ∧
    (dtsLine (parseDtsLines ["n \x7b"] 1 {}) (pyStripList "p = <&x &y>;".toList) 2).res.symbols =
      (parseDtsLines ["n \x7b"] 1 {}).res.symbols ++
        (findAmpRefs "<&x &y>".toList).map (fun r => ⟨"&" ++ r, r, "label_ref", 2⟩) :=
  ⟨fun s hs => symbol_value_truncation_amended.1 "A = \"v\"" s hs,
   fun p hp => symbol_value_truncation_amended.2.2.1 "n \x7b\nreg = <1>;\n\x7d;" p hp,
   symbol_value_truncation_amended.2.2.2.1 200 (String.mk (List.replicate 300 'a'))
     (by decide),
   symbol_value_truncation_amended.2.2.2.2.1 (pyStripList "A = \"v\"".toList) 4 "A" "=" "v"
     (by decide),
   symbol_value_truncation_amended.2.2.2.2.2.2.1 {} (pyStripList "L: n \x7b".toList) 1 "L" "n"
     none (by decide) (by decide),
   (symbol_value_truncation_amended.2.2.2.2.2.2.2 (parseDtsLines ["n \x7b"] 1 {})
     (pyStripList "p = <&x &y>;".toList) 2 "p" (some "<&x &y>")
     (by decide) (by decide) (by decide) (by decide)).1⟩

/-- The end-line backfill preserves the per-node line invariant (original
start/end order and a start-line bound), and establishes it for the node
it touches, whose new end line is the current — hence largest so far —
line number. -/
theorem updateLastEndLine_inv (l : List DtNode) (p : String) (ln : Nat)
    (h : ∀ n ∈ l, n.start_line ≤ n.end_line ∧ n.start_line ≤ ln) :
    ∀ n ∈ updateLastEndLine l p ln, n.start_line ≤ n.end_line ∧ n.start_line ≤ ln := by
  induction l with
  | nil =>
    intro n hn
    simp [updateLastEndLine] at hn
  | cons a rest ih =>
    intro n hn
    unfold updateLastEndLine at hn
    split at hn
    · rcases List.mem_cons.mp hn with rfl | h2
      · exact h n (List.mem_cons_self _ _)
      · exact ih (fun m hm => h m (List.mem_cons_of_mem a hm)) n h2
    · split at hn
      · rcases List.mem_cons.mp hn with rfl | h2
        · have ha := h a (List.mem_cons_self _ _)
          exact ⟨ha.2, ha.2⟩
        · exact h n (List.mem_cons_of_mem a h2)
      · exact h n hn

/-- One tree-scanner step preserves the per-node line invariant, moving
the line bound forward by one. -/
theorem dtsLine_node_inv (st : DtsState) (stripped : List Char) (ln : Nat)
    (h : ∀ n ∈ st.res.dt_nodes, n.start_line ≤ n.end_line ∧ n.start_line ≤ ln) :
    ∀ n ∈ (dtsLine st stripped ln).res.dt_nodes,
      n.start_line ≤ n.end_line ∧ n.start_line ≤ ln + 1 := by
  have mono : ∀ n : DtNode, n.start_line ≤ n.end_line ∧ n.start_line ≤ ln →
      n.start_line ≤ n.end_line ∧ n.start_line ≤ ln + 1 :=
    fun n hn => ⟨hn.1, Nat.le_succ_of_le hn.2⟩
  intro n hn
  unfold dtsLine at hn
  split at hn
  · exact mono n (h n hn)
  · split at hn
    · rcases List.mem_append.mp hn with h2 | h2
      · exact mono n (h n h2)
      · simp only [List.mem_singleton] at h2
        subst h2
        exact ⟨Nat.le_refl ln, Nat.le_succ ln⟩
    · split at hn
      · split at hn
        · exact mono n (updateLastEndLine_inv st.res.dt_nodes st.current_path ln h n hn)
        · exact mono n (h n hn)
      · split at hn
        · split at hn
          · exact mono n (h n hn)
          · exact mono n (h n hn)
        · exact mono n (h n hn)

/-- The per-node line invariant holds at the end of the tree-scanner
loop. -/
theorem parseDtsLines_node_inv :
    ∀ (ls : List String) (ln : Nat) (st : DtsState),
      (∀ n ∈ st.res.dt_nodes, n.start_line ≤ n.end_line ∧ n.start_line ≤ ln) →
      ∀ n ∈ (parseDtsLines ls ln st).res.dt_nodes, n.start_line ≤ n.end_line := by
  intro ls
  induction ls with
  | nil =>
    intro ln st h n hn
    exact (h n hn).1
  | cons l rest ih =>
    intro ln st h
    simp only [parseDtsLines]
    exact ih (ln + 1) _ (dtsLine_node_inv st (pyStripList l.toList) ln h)

/-- C2: a scope-closing line (`\x7d` or `\x7d;` alone once stripped) met
with a nonempty stack pops it, restores `current_path` to the popped
parent path and backfills `end_line` of the most recently emitted node
whose path is the path being closed (characterized explicitly: the last
node of the emitted sequence with that path gets `end_line := ln`, all
others are untouched); consequently every node of every parse satisfies
`end_line ≥ start_line`. -/
theorem dts_close_backfill_end_line :
    (∀ (st : DtsState) (ln : Nat) (stripped : List Char) (parent : String) (s : Nat)
        (rest : List (String × Nat)),
      (stripped = "\x7d;".toList ∨ stripped = "\x7d".toList) →
      st.node_stack = (parent, s) :: rest →
      dtsLine st stripped ln =
        { node_stack := rest
          current_path := parent
          res := { st.res with
                    dt_nodes := updateLastEndLine st.res.dt_nodes st.current_path ln } }) ∧
    (∀ (l1 l2 : List DtNode) (nd : DtNode) (p : String) (ln : Nat),
      nd.path = p → (∀ m ∈ l2, m.path ≠ p) →
      updateLastEndLine (l1 ++ nd :: l2) p ln = l1 ++ { nd with end_line := ln } :: l2) ∧
    (∀ (content : String) (n : DtNode),
      n ∈ (parseDts content).dt_nodes → n.start_line ≤ n.end_line) := by
  refine ⟨?_, ?_, ?_⟩
  · intro st ln stripped parent s rest hs hstack
    have e1 : matchHashInclude ['\x7d', ';'] = none := by decide
    have e2 : matchNodeOpen ['\x7d', ';'] = none := by decide
    have e3 : matchHashInclude ['\x7d'] = none := by decide
    have e4 : matchNodeOpen ['\x7d'] = none := by decide
    rcases hs with rfl | rfl
    · simp [dtsLine, e1, e2, hstack]
    · simp [dtsLine, e3, e4, hstack]
  · intro l1
    induction l1 with
    | nil =>
      intro l2 nd p ln hp hl2
      have hany : l2.any (fun m => m.path == p) = false := by
        rw [List.any_eq_false]
        intro m hm
        simpa using hl2 m hm
      simp [updateLastEndLine, hany, hp]
    | cons a t ih =>
      intro l2 nd p ln hp hl2
      have hany : (t ++ nd :: l2).any (fun m => m.path == p) = true := by
        rw [List.any_eq_true]
        exact ⟨nd, by simp, by simp [hp]⟩
      show updateLastEndLine (a :: (t ++ nd :: l2)) p ln =
        a :: (t ++ { nd with end_line := ln } :: l2)
      rw [updateLastEndLine, if_pos hany, ih l2 nd p ln hp hl2]
  · intro content n hn
    exact parseDtsLines_node_inv (pySplitNewlines content) 1 {} (by simp) n hn

/-- Witness for C2: the pop-and-backfill equation applied to the
one-node state produced by `n \x7b`, closed at line 2, and the backfill
characterization on a concrete two-node list. -/
theorem dts_close_backfill_end_line_witness :
    dtsLine (parseDtsLines ["n \x7b"] 1 {}) ("\x7d;".toList) 2 =
      { node_stack := []
        current_path := ""
        res := { (parseDtsLines ["n \x7b"] 1 {}).res with
                  dt_nodes := updateLastEndLine
                    (parseDtsLines ["n \x7b"] 1 {}).res.dt_nodes
                    (parseDtsLines ["n \x7b"] 1 {}).current_path 2 } } ∧
    updateLastEndLine ([⟨"/a", "a", none, none, 1, 1⟩] ++ ⟨"/b", "b", none, none, 2, 2⟩ :: []) "/b" 3 =
      [⟨"/a", "a", none, none, 1, 1⟩] ++ ⟨"/b", "b", none, none, 2, 3⟩ :: [] ∧
    ((parseDts "n \x7b\n\x7d;").dt_nodes.map
      (fun nd => decide (nd.start_line ≤ nd.end_line))) = [true] :=
  ⟨dts_close_backfill_end_line.1 (parseDtsLines ["n \x7b"] 1 {}) 2 ("\x7d;".toList) "" 1 []
     (Or.inl rfl) (by decide),
   dts_close_backfill_end_line.2.1 [⟨"/a", "a", none, none, 1, 1⟩] []
     ⟨"/b", "b", none, none, 2, 2⟩ "/b" 3 rfl (by simp),
   by decide⟩

/-! ## Path-computation refinement (C1) -/

/-- Appending to the empty string is the identity. -/
theorem string_empty_append (s : String) : "" ++ s = s := by
  cases s
  rfl

/-- The spec path of a chain extended by one name. -/
theorem openNamesPath_append_one (ns : List String) (nm : String) :
    openNamesPath (ns ++ [nm]) = openNamesPath ns ++ "/" ++ nm := by
  simp [openNamesPath]

/-- Folding the path-extension step never shrinks the accumulator. -/
theorem openNamesPath_length (ns : List String) :
    ∀ acc : String, acc.length ≤ (ns.foldl (fun a nm => a ++ "/" ++ nm) acc).length := by
  induction ns with
  | nil =>
    intro acc
    simp
  | cons a t ih =>
    intro acc
    refine Nat.le_trans ?_ (ih (acc ++ "/" ++ a))
    simp only [String.length_append]
    omega

/-- A nonempty chain has a nonempty spec path. -/
theorem one_le_openNamesPath_length (a : String) (t : List String) :
    1 ≤ (openNamesPath (a :: t)).length := by
  have h1 := openNamesPath_length t ("" ++ "/" ++ a)
  have h2 : openNamesPath (a :: t) = t.foldl (fun x nm => x ++ "/" ++ nm) ("" ++ "/" ++ a) := rfl
  rw [h2]
  refine Nat.le_trans ?_ h1
  have e : ("" ++ "/" ++ a).length = 1 + a.length := by
    rw [show ("" ++ "/" : String) = "/" from rfl, String.length_append,
       show ("/" : String).length = 1 from rfl]
  omega

/-- A nonempty chain has spec path different from the empty string (the
no-scope marker of the scanner). -/
theorem openNamesPath_ne_empty (a : String) (t : List String) :
    openNamesPath (a :: t) ≠ "" := by
  intro h
  have h1 := one_le_openNamesPath_length a t
  rw [h] at h1
  exact absurd h1 (by decide)

/-- The source's path rule agrees with the spec-side path of the extended
chain, for non-override names. -/
theorem dtsNewPath_eq (cur : List String) (nm : String) (h : pyStartsWith nm "&" = false) :
    dtsNewPath (openNamesPath cur) nm = openNamesPath (cur ++ [nm]) := by
  rw [openNamesPath_append_one]
  unfold dtsNewPath
  rw [h]
  simp only [Bool.false_eq_true, if_false]
  rcases cur with _ | ⟨a, t⟩
  · show (if ("" : String) ≠ "" then ("" : String) ++ "/" ++ nm else "/" ++ nm) =
      ("" : String) ++ "/" ++ nm
    rw [if_neg (fun hc => hc rfl), show ("" ++ "/" : String) = "/" from rfl]
  · rw [if_pos (openNamesPath_ne_empty a t)]

/-- The end-line backfill does not change any node's path. -/
theorem updateLastEndLine_map_path (l : List DtNode) (p : String) (ln : Nat) :
    (updateLastEndLine l p ln).map (fun n => n.path) = l.map (fun n => n.path) := by
  induction l with
  | nil => rfl
  | cons a rest ih =>
    unfold updateLastEndLine
    split
    · simp [ih]
    · split <;> simp

/-- The tree-scanner step on a preprocessor-include line only records the
edge. -/
theorem dtsLine_include_eq (st : DtsState) (stripped : List Char) (ln : Nat) (inc : String)
    (hI : matchHashInclude stripped = some inc) :
    dtsLine st stripped ln =
      { st with res := { st.res with includes := st.res.includes ++ [⟨inc, "#include", ln⟩] } } := by
  simp [dtsLine, hI]

/-- The tree-scanner step on a node-opening line: push, set the new
path, emit the provisional node and the optional label symbol. -/
theorem dtsLine_open_eq (st : DtsState) (stripped : List Char) (ln : Nat)
    (lab : Option String) (nm : String) (ad : Option String)
    (hI : matchHashInclude stripped = none)
    (hO : matchNodeOpen stripped = some (lab, nm, ad)) :
    dtsLine st stripped ln =
      { node_stack := (st.current_path, ln) :: st.node_stack
        current_path := dtsNewPath st.current_path nm
        res := { st.res with
                  dt_nodes := st.res.dt_nodes ++
                    [⟨dtsNewPath st.current_path nm, nm, lab, ad, ln, ln⟩]
                  symbols := st.res.symbols ++
                    (match lab with
                     | some l => [⟨l, dtsNewPath st.current_path nm, "label", ln⟩]
                     | none => []) } } := by
  rcases lab with _ | l <;> simp [dtsLine, hI, hO]

/-- The tree-scanner step on a close line with nonempty stack: pop,
restore the parent path, backfill the end line. -/
theorem dtsLine_close_cons_eq (st : DtsState) (stripped : List Char) (ln : Nat)
    (parent : String) (s : Nat) (rest : List (String × Nat))
    (hI : matchHashInclude stripped = none) (hO : matchNodeOpen stripped = none)
    (hclb : (stripped == "\x7d;".toList || stripped == "\x7d".toList) = true)
    (hst : st.node_stack = (parent, s) :: rest) :
    dtsLine st stripped ln =
      { node_stack := rest
        current_path := parent
        res := { st.res with
                  dt_nodes := updateLastEndLine st.res.dt_nodes st.current_path ln } } := by
  have hcl : stripped = "\x7d;".toList ∨ stripped = "\x7d".toList := by simpa using hclb
  rcases hcl with rfl | rfl <;>
    simp [dtsLine, hst,
      (by decide : matchHashInclude ['\x7d', ';'] = none),
      (by decide : matchNodeOpen ['\x7d', ';'] = none),
      (by decide : matchHashInclude ['\x7d'] = none),
      (by decide : matchNodeOpen ['\x7d'] = none)]

/-- The tree-scanner step on a close line with empty stack is a no-op. -/
theorem dtsLine_close_nil_eq (st : DtsState) (stripped : List Char) (ln : Nat)
    (hI : matchHashInclude stripped = none) (hO : matchNodeOpen stripped = none)
    (hclb : (stripped == "\x7d;".toList || stripped == "\x7d".toList) = true)
    (hst : st.node_stack = []) :
    dtsLine st stripped ln = st := by
  have hcl : stripped = "\x7d;".toList ∨ stripped = "\x7d".toList := by simpa using hclb
  rcases hcl with rfl | rfl <;>
    simp [dtsLine, hst,
      (by decide : matchHashInclude ['\x7d', ';'] = none),
      (by decide : matchNodeOpen ['\x7d', ';'] = none),
      (by decide : matchHashInclude ['\x7d'] = none),
      (by decide : matchNodeOpen ['\x7d'] = none)]

/-- On a line that opens nothing and closes nothing, the scanner's
cursor, stack and node list are untouched. -/
theorem dtsLine_other_components (st : DtsState) (stripped : List Char) (ln : Nat)
    (hI : matchHashInclude stripped = none) (hO : matchNodeOpen stripped = none)
    (hclb : (stripped == "\x7d;".toList || stripped == "\x7d".toList) = false) :
    (dtsLine st stripped ln).current_path = st.current_path ∧
    (dtsLine st stripped ln).node_stack = st.node_stack ∧
    (dtsLine st stripped ln).res.dt_nodes = st.res.dt_nodes := by
  obtain ⟨hna, hnb⟩ : ¬stripped = ['\x7d', ';'] ∧ ¬stripped = ['\x7d'] := by simpa using hclb
  rcases hP : matchDtProp stripped with _ | ⟨⟨pn, pv⟩⟩
  · simp [dtsLine, hI, hO, hna, hnb, hP]
  · simp only [dtsLine, hI, hO, hP]
    rw [if_neg (by simp [hna, hnb])]
    split <;> simp

/-- The reference scanner ignores include lines. -/
theorem specChainLine_include_eq (sst : SpecChainState) (stripped : List Char) (inc : String)
    (hI : matchHashInclude stripped = some inc) :
    specChainLine sst stripped = sst := by
  simp [specChainLine, hI]

/-- The reference scanner's step on a node-opening line. -/
theorem specChainLine_open_eq (sst : SpecChainState) (stripped : List Char)
    (lab : Option String) (nm : String) (ad : Option String)
    (hI : matchHashInclude stripped = none)
    (hO : matchNodeOpen stripped = some (lab, nm, ad)) :
    specChainLine sst stripped =
      { stack := sst.cur :: sst.stack
        cur := sst.cur ++ [nm]
        chains := sst.chains ++ [sst.cur ++ [nm]] } := by
  simp [specChainLine, hI, hO]

/-- The reference scanner's step on a close line with nonempty stack. -/
theorem specChainLine_close_cons_eq (sst : SpecChainState) (stripped : List Char)
    (c : List String) (cs : List (List String))
    (hI : matchHashInclude stripped = none) (hO : matchNodeOpen stripped = none)
    (hclb : (stripped == "\x7d;".toList || stripped == "\x7d".toList) = true)
    (hst : sst.stack = c :: cs) :
    specChainLine sst stripped = { sst with stack := cs, cur := c } := by
  have hcl : stripped = "\x7d;".toList ∨ stripped = "\x7d".toList := by simpa using hclb
  rcases hcl with rfl | rfl <;>
    simp [specChainLine, hst,
      (by decide : matchHashInclude ['\x7d', ';'] = none),
      (by decide : matchNodeOpen ['\x7d', ';'] = none),
      (by decide : matchHashInclude ['\x7d'] = none),
      (by decide : matchNodeOpen ['\x7d'] = none)]

/-- The reference scanner's step on a close line with empty stack. -/
theorem specChainLine_close_nil_eq (sst : SpecChainState) (stripped : List Char)
    (hI : matchHashInclude stripped = none) (hO : matchNodeOpen stripped = none)
    (hclb : (stripped == "\x7d;".toList || stripped == "\x7d".toList) = true)
    (hst : sst.stack = []) :
    specChainLine sst stripped = sst := by
  have hcl : stripped = "\x7d;".toList ∨ stripped = "\x7d".toList := by simpa using hclb
  rcases hcl with rfl | rfl <;>
    simp [specChainLine, hst,
      (by decide : matchHashInclude ['\x7d', ';'] = none),
      (by decide : matchNodeOpen ['\x7d', ';'] = none),
      (by decide : matchHashInclude ['\x7d'] = none),
      (by decide : matchNodeOpen ['\x7d'] = none)]

/-- The reference scanner ignores all other lines. -/
theorem specChainLine_other_eq (sst : SpecChainState) (stripped : List Char)
    (hI : matchHashInclude stripped = none) (hO : matchNodeOpen stripped = none)
    (hclb : (stripped == "\x7d;".toList || stripped == "\x7d".toList) = false) :
    specChainLine sst stripped = sst := by
  obtain ⟨hna, hnb⟩ : ¬stripped = ['\x7d', ';'] ∧ ¬stripped = ['\x7d'] := by simpa using hclb
  simp [specChainLine, hI, hO, hna, hnb]

/-- Coupling step: on a non-override line, the source scanner's cursor,
stack of parent paths and emitted node paths stay pointwise equal to the
spec paths of the reference scanner's chains. -/
theorem dtsLine_chain_couple (st : DtsState) (sst : SpecChainState) (stripped : List Char)
    (ln : Nat) (hno : noOverrideLine stripped = true)
    (h1 : st.current_path = openNamesPath sst.cur)
    (h2 : st.node_stack.map Prod.fst = sst.stack.map openNamesPath)
    (h3 : st.res.dt_nodes.map (fun n => n.path) = sst.chains.map openNamesPath) :
    (dtsLine st stripped ln).current_path = openNamesPath (specChainLine sst stripped).cur ∧
    (dtsLine st stripped ln).node_stack.map Prod.fst =
      (specChainLine sst stripped).stack.map openNamesPath ∧
    (dtsLine st stripped ln).res.dt_nodes.map (fun n => n.path) =
      (specChainLine sst stripped).chains.map openNamesPath := by
  rcases hI : matchHashInclude stripped with _ | inc
  · rcases hO : matchNodeOpen stripped with _ | ⟨⟨lab, nm, ad⟩⟩
    · by_cases hcl : stripped = ['\x7d', ';'] ∨ stripped = ['\x7d']
      · have hclb : (stripped == "\x7d;".toList || stripped == "\x7d".toList) = true := by
          rcases hcl with rfl | rfl <;> decide
        rcases hst : st.node_stack with _ | ⟨⟨parent, s⟩, rest⟩
        · have hsst : sst.stack = [] := by
            rcases hs2 : sst.stack with _ | ⟨c, cs⟩
            · rfl
            · rw [hst, hs2] at h2
              exact absurd h2 (by simp)
          rw [dtsLine_close_nil_eq st stripped ln hI hO hclb hst,
              specChainLine_close_nil_eq sst stripped hI hO hclb hsst]
          exact ⟨h1, h2, h3⟩
        · rcases hs2 : sst.stack with _ | ⟨c, cs⟩
          · rw [hst, hs2] at h2
            exact absurd h2 (by simp)
          · rw [hst, hs2] at h2
            simp only [List.map_cons, List.cons.injEq] at h2
            rw [dtsLine_close_cons_eq st stripped ln parent s rest hI hO hclb hst,
                specChainLine_close_cons_eq sst stripped c cs hI hO hclb hs2]
            refine ⟨h2.1, h2.2, ?_⟩
            rw [updateLastEndLine_map_path]
            exact h3
      · have hclb : (stripped == "\x7d;".toList || stripped == "\x7d".toList) = false := by
          obtain ⟨hna, hnb⟩ := not_or.mp hcl
          simp [hna, hnb]
        obtain ⟨e1, e2, e3⟩ := dtsLine_other_components st stripped ln hI hO hclb
        rw [e1, e2, e3, specChainLine_other_eq sst stripped hI hO hclb]
        exact ⟨h1, h2, h3⟩
    · have hov : pyStartsWith nm "&" = false := by
        unfold noOverrideLine at hno
        rw [hO] at hno
        simpa using hno
      rw [dtsLine_open_eq st stripped ln lab nm ad hI hO,
          specChainLine_open_eq sst stripped lab nm ad hI hO]
      refine ⟨?_, ?_, ?_⟩
      · show dtsNewPath st.current_path nm = openNamesPath (sst.cur ++ [nm])
        rw [h1, dtsNewPath_eq sst.cur nm hov]
      · show st.current_path :: st.node_stack.map Prod.fst =
          openNamesPath sst.cur :: sst.stack.map openNamesPath
        rw [h1, h2]
      · simp only [List.map_append, List.map_cons, List.map_nil]
        rw [h3, h1, dtsNewPath_eq sst.cur nm hov]
  · rw [dtsLine_include_eq st stripped ln inc hI,
        specChainLine_include_eq sst stripped inc hI]
    exact ⟨h1, h2, h3⟩

/-- The coupling carried through the whole line loop. -/
theorem parseDtsLines_chain_couple :
    ∀ (ls : List String) (ln : Nat) (st : DtsState) (sst : SpecChainState),
      (∀ l ∈ ls, noOverrideLine (pyStripList l.toList) = true) →
      st.current_path = openNamesPath sst.cur →
      st.node_stack.map Prod.fst = sst.stack.map openNamesPath →
      st.res.dt_nodes.map (fun n => n.path) = sst.chains.map openNamesPath →
      (parseDtsLines ls ln st).res.dt_nodes.map (fun n => n.path) =
        (specChainLines ls sst).chains.map openNamesPath := by
  intro ls
  induction ls with
  | nil =>
    intro ln st sst _ _ _ h3
    exact h3
  | cons l rest ih =>
    intro ln st sst hall h1 h2 h3
    simp only [parseDtsLines, specChainLines]
    obtain ⟨g1, g2, g3⟩ := dtsLine_chain_couple st sst (pyStripList l.toList) ln
      (hall l (List.mem_cons_self _ _)) h1 h2 h3
    exact ih (ln + 1) _ _ (fun x hx => hall x (List.mem_cons_of_mem l hx)) g1 g2 g3

/-- C1: on every node-opening line the emitted node's path follows the
override/hierarchical rule (literal override token for `&`-names, else
`currentPath + "/" + name`, or `"/" + name` with no open scope); and on
override-free input the emitted paths are exactly the spec-side paths —
for every node, the concatenation of its ancestor names joined by `/`
and rooted at `/`, as computed by the reference chain scanner. -/
theorem dts_path_computation :
    (∀ (st : DtsState) (stripped : List Char) (ln : Nat) (lab : Option String)
        (nm : String) (ad : Option String),
      matchHashInclude stripped = none →
      matchNodeOpen stripped = some (lab, nm, ad) →
      (dtsLine st stripped ln).res.dt_nodes =
        st.res.dt_nodes ++ [⟨dtsNewPath st.current_path nm, nm, lab, ad, ln, ln⟩] ∧
      (dtsLine st stripped ln).current_path = dtsNewPath st.current_path nm ∧
      dtsNewPath st.current_path nm =
        (if pyStartsWith nm "&" then nm
         else if st.current_path ≠ "" then st.current_path ++ "/" ++ nm
         else "/" ++ nm)) ∧
    (∀ content : String, noOverride content = true →
      (parseDts content).dt_nodes.map (fun n => n.path) =
        (specChains content).map openNamesPath) := by
  constructor
  · intro st stripped ln lab nm ad hI hO
    rw [dtsLine_open_eq st stripped ln lab nm ad hI hO]
    exact ⟨rfl, rfl, rfl⟩
  · intro content hn
    unfold parseDts specChains
    refine parseDtsLines_chain_couple (pySplitNewlines content) 1 {} {} ?_ rfl rfl rfl
    intro l hl
    unfold noOverride at hn
    rw [List.all_eq_true] at hn
    exact hn l hl

/-- Witness for C1: a concrete two-level tree — the refinement equation
evaluated, the concrete paths, and the open-step rule at a node line. -/
theorem dts_path_computation_witness :
    noOverride "soc \x7b\nuart \x7b\n\x7d;\n\x7d;" = true ∧
    (parseDts "soc \x7b\nuart \x7b\n\x7d;\n\x7d;").dt_nodes.map (fun n => n.path) =
      (specChains "soc \x7b\nuart \x7b\n\x7d;\n\x7d;").map openNamesPath ∧
    (parseDts "soc \x7b\nuart \x7b\n\x7d;\n\x7d;").dt_nodes.map (fun n => n.path) =
      ["/soc", "/soc/uart"] ∧
    (dtsLine (parseDtsLines ["soc \x7b"] 1 {}) (pyStripList "uart \x7b".toList) 2).current_path =
      dtsNewPath (parseDtsLines ["soc \x7b"] 1 {}).current_path "uart" :=
  ⟨by decide,
   dts_path_computation.2 "soc \x7b\nuart \x7b\n\x7d;\n\x7d;" (by decide),
   by decide,
   (dts_path_computation.1 (parseDtsLines ["soc \x7b"] 1 {})
      (pyStripList "uart \x7b".toList) 2 none "uart" none (by decide) (by decide)).2.1⟩

/-! ## Crawler pruning (C4) -/

/-- An entry collected from a directory's own file list sits in that
directory. -/
theorem typedFiles_dirComps (base : List String) (fs : List String) (e : ScanEntry)
    (he : e ∈ typedFiles base fs) : e.dirComps = base := by
  rcases List.mem_filterMap.mp he with ⟨f, _, hf⟩
  rcases Option.map_eq_some'.mp hf with ⟨ty, _, hty⟩
  rw [← hty]

mutual
/-- Every crawled entry lies inside the directory the walk was started
from. -/
theorem scanTree_base_below : ∀ (t : FTree) (base : List String) (e : ScanEntry),
    e ∈ scanTree t base → base <+: e.dirComps
  | .node nm fs ch => by
    intro base e he
    unfold scanTree at he
    split at he
    · exact absurd he (List.not_mem_nil e)
    · rcases List.mem_append.mp he with h1 | h1
      · rw [typedFiles_dirComps base fs e h1]
      · exact scanForest_base_below ch base e h1
/-- Forest version of `scanTree_base_below`. -/
theorem scanForest_base_below : ∀ (f : FForest) (base : List String) (e : ScanEntry),
    e ∈ scanForest f base → base <+: e.dirComps
  | .nil => by
    intro base e he
    exact absurd he (List.not_mem_nil e)
  | .cons t rest => by
    intro base e he
    rcases List.mem_append.mp (by simpa [scanForest] using he) with h1 | h1
    · have hb : base <+: base ++ [t.name] := List.prefix_append base [t.name]
      exact List.IsPrefix.trans hb (scanTree_base_below t (base ++ [t.name]) e h1)
    · exact scanForest_base_below rest base e h1
end

mutual
/-- No directory on the chain from the walk's starting point down to a
crawled entry's directory matches an exclusion pattern: the walk only
reaches a directory after every ancestor — itself included — passed the
exclusion check. -/
theorem scanTree_chain_unexcluded : ∀ (t : FTree) (base mid : List String) (e : ScanEntry),
    e ∈ scanTree t base → base <+: mid → mid <+: e.dirComps →
    excludedRel (relStr mid) = false
  | .node nm fs ch => by
    intro base mid e he hbm hme
    unfold scanTree at he
    split at he
    · exact absurd he (List.not_mem_nil e)
    · next hnot =>
      have hbase : excludedRel (relStr base) = false := by
        rcases Bool.eq_false_or_eq_true (excludedRel (relStr base)) with h | h
        · exact absurd h hnot
        · exact h
      rcases List.mem_append.mp he with h1 | h1
      · have hd := typedFiles_dirComps base fs e h1
        rw [hd] at hme
        have : mid = base := hme.eq_of_length_le hbm.length_le
        rw [this]
        exact hbase
      · exact scanForest_chain_unexcluded ch base mid e h1 hbase hbm hme
/-- Forest version of `scanTree_chain_unexcluded`; the starting
directory itself is known unexcluded. -/
theorem scanForest_chain_unexcluded :
    ∀ (f : FForest) (base mid : List String) (e : ScanEntry),
    e ∈ scanForest f base → excludedRel (relStr base) = false →
    base <+: mid → mid <+: e.dirComps →
    excludedRel (relStr mid) = false
  | .nil => by
    intro base mid e he _ _ _
    exact absurd he (List.not_mem_nil e)
  | .cons t rest => by
    intro base mid e he hbase hbm hme
    rcases List.mem_append.mp (by simpa [scanForest] using he) with h1 | h1
    · have hchild : (base ++ [t.name]) <+: e.dirComps :=
        scanTree_base_below t (base ++ [t.name]) e h1
      rcases List.prefix_or_prefix_of_prefix hme hchild with h2 | h2
      · by_cases hlen : mid.length ≤ base.length
        · rw [← hbm.eq_of_length_le hlen]
          exact hbase
        · have hlen2 : (base ++ [t.name]).length ≤ mid.length := by
            simp only [List.length_append, List.length_cons, List.length_nil]
            omega
          rw [h2.eq_of_length_le hlen2]
          exact scanTree_chain_unexcluded t (base ++ [t.name]) (base ++ [t.name]) e h1
            List.prefix_rfl hchild
      · exact scanTree_chain_unexcluded t (base ++ [t.name]) mid e h1 h2 hme
    · exact scanForest_chain_unexcluded rest base mid e h1 hbase hbm hme
end

/-- C4: for every directory of the project tree whose relative path
matches an exclusion pattern, the crawl visits neither its files nor any
descendant, so no pipeline output (FileRecord, Symbol, IncludeEdge,
TreeNode or TreeProperty all hang off a `TaggedFacts` entry) references
a file under that directory. -/
theorem excluded_dirs_pruned :
    ∀ (t : FTree) (content : List String → String) (d : List String),
      dirAtTree t d = true →
      excludedRel (relStr d) = true →
      ∀ tf ∈ indexFacts content t, d.isPrefixOf tf.dirComps = false := by
  intro t content d _ hex tf htf
  rcases List.mem_map.mp htf with ⟨e, he, rfl⟩
  rcases Bool.eq_false_or_eq_true (d.isPrefixOf e.dirComps) with h | h
  · have hpre : d <+: e.dirComps := List.isPrefixOf_iff_prefix.mp h
    have hnil : ([] : List String) <+: d := List.nil_prefix
    have h2 := scanTree_chain_unexcluded t [] d e he hnil hpre
    rw [hex] at h2
    exact absurd h2 (by simp)
  · exact h

/-- A concrete project tree for the C4 witness: an excluded build-work
subdirectory carrying a tree-source file. -/
def demoTree : FTree :=
  .node "proj" ["top.conf"] (.cons
    (.node "a" [] (.cons
      (.node "tmp" [] (.cons
        (.node "work" ["gen.bb"] (.cons (.node "x" ["d.dts"] .nil) .nil)) .nil)) .nil))
    .nil)

/-- Witness for C4: the directory `a/tmp/work/x` of the concrete tree
matches an exclusion pattern, and the theorem yields that no output
entry lies under it. -/
theorem excluded_dirs_pruned_witness :
    dirAtTree demoTree ["a", "tmp", "work", "x"] = true ∧
    excludedRel (relStr ["a", "tmp", "work", "x"]) = true ∧
    ∀ tf ∈ indexFacts (fun _ => "") demoTree,
      ["a", "tmp", "work", "x"].isPrefixOf tf.dirComps = false :=
  ⟨by decide, by decide,
   excluded_dirs_pruned demoTree (fun _ => "") ["a", "tmp", "work", "x"]
     (by decide) (by decide)⟩

end Bsp
